import Mathlib

/-!
Verification of the `tx` package of the monarj wallet (UTXO registry and
transaction processor), shallowly embedded from `src/db/db.go`.

Byte strings are modelled as `List Nat`, registries as total maps from
address bytes to coin lists (the Go `map[string]Coins`, whose lookup of an
absent key yields the empty slice).  Log output (`log.Println`) is modelled
as a list of message strings produced alongside each operation; strings
appended to Go log messages that come from external collaborators (hex
transaction hashes, display addresses, wrapped decoder errors) are elided,
the fixed message text is kept.
-/

namespace tx

/-- Raw byte strings (each element is one byte). -/
abbrev Bytes := List Nat

/-- Coin represents an available transaction output owned by the wallet,
from `type Coin struct` in the source. -/
structure Coin where
  addr : Bytes
  txHash : Bytes
  txIndex : Nat
  value : Nat
  ttype : Int
deriving DecidableEq

/-- One transaction input: referenced previous-output hash, index, and raw
signature-script bytes (`msg.TxIn`, as described by the spec's interface
section). -/
structure TxIn where
  hash : Bytes
  index : Nat
  script : Bytes
deriving DecidableEq

/-- One transaction output: value and raw output-script bytes. -/
structure TxOut where
  value : Nat
  script : Bytes
deriving DecidableEq

/-- A decoded transaction.  `hash` models the externally computed
`tx.Hash()` of the wire-format collaborator. -/
structure Tx where
  txIn : List TxIn
  txOut : List TxOut
  hash : Bytes
deriving DecidableEq

/-- The UTXO registry: the global `coins` map from serialized public key
(the Go map key `string(pub.Serialize())`) to the list of coins.  Absent
addresses map to the empty list, as Go map lookup does for slices. -/
abbrev Registry := Bytes → List Coin

/-- The initial, empty `coins` map. -/
def emptyRegistry : Registry := fun _ => []

/-- Store a coin list under an address (the Go `coins[a] = ...`). -/
def setCoins (reg : Registry) (a : Bytes) (cs : List Coin) : Registry :=
  fun x => if x = a then cs else reg x

/-- The matching test of the removal loop:
`bytes.Equal(c.TxHash, hash) && c.TxIndex == index`. -/
def coinMatch (c : Coin) (hash : Bytes) (index : Nat) : Bool :=
  c.txHash == hash && c.txIndex == index

/-- Out-of-range default used to model Go's `tx.TxOut[index]` access;
the processor only ever indexes in range. -/
def defaultTxOut : TxOut := ⟨0, []⟩

/-- A default coin used for `getD` positional access in statements. -/
def coin0 : Coin := ⟨[], [], 0, 0, 0⟩

/-- Registry `add` from the source: builds a `Coin` from the transaction
and appends it to the address's list.  Always succeeds. -/
def add (reg : Registry) (pub : Bytes) (t : Tx) (index : Nat) (ttype : Int) : Registry :=
  let c : Coin :=
    { addr := pub
      txHash := t.hash
      txIndex := index
      value := (t.txOut.getD index defaultTxOut).value
      ttype := ttype }
  setCoins reg pub (reg pub ++ [c])

/-- Index of the first coin matching `(hash, index)`, modelling the scan
order of the `for i, c := range coin` loop in `remove`. -/
def findIdx : List Coin → Bytes → Nat → Option Nat
  | [], _, _ => none
  | c :: rest, hash, index =>
    if coinMatch c hash index then some 0
    else (findIdx rest hash index).map (· + 1)

/-- The order-destroying O(1) deletion of `remove`: overwrite position `i`
with the last element, then drop the last element
(`coin[i] = coin[len(coin)-1]; coin = coin[:len(coin)-1]`). -/
def swapRemove (cs : List Coin) (i : Nat) : List Coin :=
  match cs.getLast? with
  | none => cs
  | some last => (cs.set i last).dropLast

/-- Registry `remove` from the source: linear scan for the first coin with
the given `(hash, index)`; delete it in place on a hit, otherwise return
the `coin was not found` error without touching the map.  The returned
registry is the state of the global `coins` map after the call. -/
def remove (reg : Registry) (pub : Bytes) (hash : Bytes) (index : Nat) :
    Registry × Except String Unit :=
  match findIdx (reg pub) hash index with
  | some i => (setCoins reg pub (swapRemove (reg pub) i), Except.ok ())
  | none => (reg, Except.error "coin was not found")

/-- Read one byte from a buffer; fails on an empty buffer. -/
def readByte : Bytes → Option (Nat × Bytes)
  | [] => none
  | b :: rest => some (b, rest)

/-- Read exactly `n` bytes from a buffer; fails when the buffer is
shorter than `n`. -/
def readBytes : Nat → Bytes → Option (Bytes × Bytes)
  | 0, data => some ([], data)
  | _ + 1, [] => none
  | n + 1, b :: rest =>
    match readBytes n rest with
    | none => none
    | some (xs, r) => some (b :: xs, r)

/-- `ScriptSigH`, the supported signature-script header (DER-style
signature wrapper) from the source. -/
structure ScriptSigH where
  sigLength : Nat
  pre30 : Nat
  rsLength : Nat
  preR02 : Nat
  rLength : Nat
  r : Bytes
  preL02 : Nat
  sLength : Nat
  s : Bytes
deriving DecidableEq

/-- Modelled from the spec: `msg.Unpack` (wire-format collaborator, not in
`src/`) applied to `ScriptSigH` — positional decoding of fixed one-byte
fields and of the variable-length `R`/`S` fields whose lengths are given by
the preceding byte, failing when the buffer is shorter than required.
Returns the decoded record and the unconsumed remainder of the buffer. -/
def unpackScriptSigH (data : Bytes) : Option (ScriptSigH × Bytes) := do
  let (sigLength, d) ← readByte data
  let (pre30, d) ← readByte d
  let (rsLength, d) ← readByte d
  let (preR02, d) ← readByte d
  let (rLength, d) ← readByte d
  let (r, d) ← readBytes rLength d
  let (preL02, d) ← readByte d
  let (sLength, d) ← readByte d
  let (s, d) ← readBytes sLength d
  pure (⟨sigLength, pre30, rsLength, preR02, rLength, r, preL02, sLength, s⟩, d)

/-- `ScriptSigT`, the supported signature-script tail from the source:
sighash-type byte, then a length-prefixed public key. -/
structure ScriptSigT where
  post01 : Nat
  length : Nat
  pubkey : Bytes
deriving DecidableEq

/-- Modelled from the spec: `msg.Unpack` applied to `ScriptSigT`. -/
def unpackScriptSigT (data : Bytes) : Option (ScriptSigT × Bytes) := do
  let (post01, d) ← readByte data
  let (length, d) ← readByte d
  let (pubkey, d) ← readBytes length d
  pure (⟨post01, length, pubkey⟩, d)

/-- `Script`, the pay-to-public-key-hash output template from the source:
five fixed opcode/length bytes around a 20-byte hash. -/
structure Script where
  dup : Nat
  hash160 : Nat
  hashLength : Nat
  pubHash : Bytes
  equalVerify : Nat
  checkSig : Nat
deriving DecidableEq

/-- Modelled from the spec: `msg.Unpack` applied to `Script`; the
`PubHash` field is fixed-length (20 bytes). -/
def unpackScript (data : Bytes) : Option (Script × Bytes) := do
  let (dup, d) ← readByte data
  let (hash160, d) ← readByte d
  let (hashLength, d) ← readByte d
  let (pubHash, d) ← readBytes 20 d
  let (equalVerify, d) ← readByte d
  let (checkSig, d) ← readByte d
  pure (⟨dup, hash160, hashLength, pubHash, equalVerify, checkSig⟩, d)

/-- `Script2`, the pay-to-public-key output template from the source:
length-prefixed public key followed by one opcode byte. -/
structure Script2 where
  length : Nat
  pubkey : Bytes
  checkSig : Nat
deriving DecidableEq

/-- Modelled from the spec: `msg.Unpack` applied to `Script2`. -/
def unpackScript2 (data : Bytes) : Option (Script2 × Bytes) := do
  let (length, d) ← readByte data
  let (pubkey, d) ← readBytes length d
  let (checkSig, d) ← readByte d
  pure (⟨length, pubkey, checkSig⟩, d)

/-- `parseScriptsigH` from the source: unpack the header; if the buffer is
exactly empty afterwards report the recoverable old-format outcome; then
validate the three marker bytes; on success return the unconsumed
remainder (the Go function's `*bytes.Buffer`). -/
def parseScriptsigH (data : Bytes) : Except String Bytes :=
  match unpackScriptSigH data with
  | none => Except.error "this tx is not supported(unknown format)"
  | some (s, rest) =>
    if rest.isEmpty then Except.error "old type of scriptsig, ignoring"
    else if s.pre30 != 0x30 || s.preR02 != 0x02 || s.preL02 != 0x02 then
      Except.error "unsuported scriptsig"
    else Except.ok rest

/-- `parseScriptsigT` from the source: unpack the tail from the remaining
buffer and require full consumption.  The second argument mirrors the
unused `data []byte` parameter of the Go function. -/
def parseScriptsigT (buf : Bytes) (_data : Bytes) : Except String ScriptSigT :=
  match unpackScriptSigT buf with
  | none => Except.error "this tx is not supported(unknown format)"
  | some (s, rest) =>
    if rest.isEmpty then Except.ok s
    else Except.error "this tx is not supported"

/-- The generic `parse` of the source (unpack plus full-consumption check)
instantiated at `Script`. -/
def parseScript (data : Bytes) : Except String Script :=
  match unpackScript data with
  | none => Except.error "this tx is not supported(unknown format)"
  | some (s, rest) =>
    if rest.isEmpty then Except.ok s
    else Except.error "this tx is not supported"

/-- The generic `parse` of the source instantiated at `Script2`. -/
def parseScript2 (data : Bytes) : Except String Script2 :=
  match unpackScript2 data with
  | none => Except.error "this tx is not supported(unknown format)"
  | some (s, rest) =>
    if rest.isEmpty then Except.ok s
    else Except.error "this tx is not supported"

/-- Modelled from the spec: the opcode constant `opDUP` is defined
elsewhere in the `tx` package; the spec fixes the byte value 0x76. -/
def opDUP : Nat := 0x76

/-- Modelled from the spec: the opcode constant `opHASH160` (0xA9). -/
def opHASH160 : Nat := 0xa9

/-- Modelled from the spec: the opcode constant `opEQUALVERIFY` (0x88). -/
def opEQUALVERIFY : Nat := 0x88

/-- Modelled from the spec: the opcode constant `opCHECKSIG` (0xAC). -/
def opCHECKSIG : Nat := 0xac

/-- Modelled from the spec: the key-ownership collaborator (`key`
package, not in `src/`).  Public keys are represented by their serialized
bytes, so `Serialize` is the identity: `newPublicKey` composes the
collaborator's parse with its serialization (`none` models a parse
failure), `hasPubkey` is the ownership test, and `hasPubHash` is the
20-byte-hash reverse lookup returning the owned key when found. -/
structure KeyEnv where
  newPublicKey : Bytes → Option Bytes
  hasPubkey : Bytes → Bool
  hasPubHash : Bytes → Option Bytes

/-- `checkTxin` from the source: require the fixed sighash-type byte 0x01,
parse the embedded public key, and require wallet ownership. -/
def checkTxin (env : KeyEnv) (s : ScriptSigT) : Except String Bytes :=
  if s.post01 != 0x01 then Except.error "unsuported scriptsig"
  else
    match env.newPublicKey s.pubkey with
    | none => Except.error "invalid pubkey"
    | some pk =>
      if !env.hasPubkey pk then Except.error "not concerened address"
      else Except.ok pk

/-- `checkTxout` from the source: validate the five fixed bytes of the
pay-to-public-key-hash template, then reverse-look-up the 20-byte hash. -/
def checkTxout (env : KeyEnv) (s : Script) : Except String Bytes :=
  if s.dup != opDUP || s.hash160 != opHASH160 || s.hashLength != 0x14 ||
      s.equalVerify != opEQUALVERIFY || s.checkSig != opCHECKSIG then
    Except.error "unsuported scriptsig"
  else
    match env.hasPubHash s.pubHash with
    | none => Except.error "not concerened address"
    | some pk => Except.ok pk

/-- `checkTxout2` from the source: validate the final opcode byte, parse
the embedded public key, and require wallet ownership. -/
def checkTxout2 (env : KeyEnv) (s : Script2) : Except String Bytes :=
  if s.checkSig != opCHECKSIG then Except.error "unsuported scriptsig"
  else
    match env.newPublicKey s.pubkey with
    | none => Except.error "invalid pubkey"
    | some pk =>
      if !env.hasPubkey pk then Except.error "not concerened address"
      else Except.ok pk

/-- The 32 zero bytes compared against an input's referenced hash
(`zero := make([]byte, 32)`). -/
def zero32 : Bytes := List.replicate 32 0

/-- The body of the per-input loop of `Add`: coinbase sentinel check, the
three-stage signature-script pipeline, then registry removal.  Returns the
registry after the step together with the log messages it emitted. -/
def processIn (env : KeyEnv) (inp : TxIn) (reg : Registry) : Registry × List String :=
  if inp.hash == zero32 && inp.index == 0xffffffff then
    (reg, ["coinbase"])
  else
    match parseScriptsigH inp.script with
    | Except.error e => (reg, [e])
    | Except.ok buf =>
      match parseScriptsigT buf inp.script with
      | Except.error e => (reg, [e])
      | Except.ok s =>
        match checkTxin env s with
        | Except.error e => (reg, [e])
        | Except.ok pubkey =>
          let r := remove reg pubkey inp.hash inp.index
          match r.2 with
          | Except.ok _ => (r.1, [])
          | Except.error e => (r.1, [e])

/-- The body of the per-output loop of `Add`: both templates are parsed,
the pay-to-public-key-hash result is consulted first, and a coin is added
when the ownership check succeeds.  `i` is the output's position. -/
def processOut (env : KeyEnv) (mtx : Tx) (i : Nat) (out : TxOut) (reg : Registry) :
    Registry × List String :=
  match parseScript out.script, parseScript2 out.script with
  | Except.ok s, _ =>
    (match checkTxout env s with
     | Except.error e3 => (reg, ["pubkeyhash scriptsig", e3])
     | Except.ok pubkey => (add reg pubkey mtx i 0, ["pubkeyhash scriptsig"]))
  | Except.error _, Except.ok s2 =>
    (match checkTxout2 env s2 with
     | Except.error e3 => (reg, ["pubkey scriptsig", e3])
     | Except.ok pubkey => (add reg pubkey mtx i 1, ["pubkey scriptsig"]))
  | Except.error e, Except.error e2 =>
    (reg, [e ++ " " ++ e2, "This txout is not supproted"])

/-- The input loop of `Add`, folded over the input list. -/
def runIns (env : KeyEnv) (reg : Registry) : List TxIn → Registry × List String
  | [] => (reg, [])
  | inp :: rest =>
    let p := processIn env inp reg
    let q := runIns env p.1 rest
    (q.1, p.2 ++ q.2)

/-- The output loop of `Add`, folded over the output list with the
position counter `i`. -/
def runOuts (env : KeyEnv) (mtx : Tx) (reg : Registry) (i : Nat) :
    List TxOut → Registry × List String
  | [] => (reg, [])
  | out :: rest =>
    let p := processOut env mtx i out reg
    let q := runOuts env mtx p.1 (i + 1) rest
    (q.1, p.2 ++ q.2)

/-- `Add` from the source, the transaction processor: run the input loop,
then the output loop, and return `nil` (here: `Except.ok` carrying the
final registry and the emitted log). -/
def Add (env : KeyEnv) (reg : Registry) (mtx : Tx) :
    Except String (Registry × List String) :=
  let p := runIns env reg mtx.txIn
  let q := runOuts env mtx p.1 0 mtx.txOut
  Except.ok (q.1, p.2 ++ q.2)

/-- Pairwise distinctness of `(txHash, txIndex)` within one coin list. -/
def coinsOk : List Coin → Bool
  | [] => true
  | c :: rest => (rest.all fun d => !(coinMatch d c.txHash c.txIndex)) && coinsOk rest

/-- The registry invariant claimed by the spec: no two coins stored under
the same address share the same `(transaction hash, output index)` pair. -/
def Invariant (reg : Registry) : Prop := ∀ a, coinsOk (reg a) = true

theorem readBytes_len_append : ∀ (l r : Bytes), readBytes l.length (l ++ r) = some (l, r) := by
  intro l
  induction l with
  | nil => intro r; rfl
  | cons b t ih => intro r; simp [readBytes, ih r]

theorem coinMatch_comm (c d : Coin) :
    coinMatch c d.txHash d.txIndex = coinMatch d c.txHash c.txIndex := by
  simp only [coinMatch]
  rw [Bool.eq_iff_iff]
  simp [beq_iff_eq, Bool.and_eq_true]
  constructor
  · rintro ⟨h1, h2⟩; exact ⟨h1.symm, h2.symm⟩
  · rintro ⟨h1, h2⟩; exact ⟨h1.symm, h2.symm⟩

theorem coinsOk_eq_true_iff (cs : List Coin) :
    coinsOk cs = true ↔ cs.Pairwise (fun c d => coinMatch d c.txHash c.txIndex = false) := by
  induction cs with
  | nil => simp [coinsOk]
  | cons c rest ih =>
    simp [coinsOk, List.all_eq_true, List.pairwise_cons, ih, Bool.not_eq_true',
      and_comm]

theorem coinsOk_append_one (cs : List Coin) (c : Coin)
    (h1 : coinsOk cs = true)
    (h2 : (cs.all fun d => !(coinMatch d c.txHash c.txIndex)) = true) :
    coinsOk (cs ++ [c]) = true := by
  induction cs with
  | nil => rfl
  | cons x xs ih =>
    simp only [coinsOk, Bool.and_eq_true, List.all_eq_true] at h1 h2
    obtain ⟨hx, hxs⟩ := h1
    have hrec : coinsOk (xs ++ [c]) = true := by
      apply ih hxs
      simp only [List.all_eq_true]
      intro d hd
      exact h2 d (List.mem_cons_of_mem x hd)
    simp only [List.cons_append, coinsOk, Bool.and_eq_true, List.all_eq_true]
    refine ⟨?_, hrec⟩
    intro d hd
    rcases List.mem_append.1 hd with hd' | hd'
    · exact hx d hd'
    · have hdc : d = c := by simpa using hd'
      subst hdc
      rw [coinMatch_comm]
      exact h2 x (List.mem_cons_self x xs)

theorem findIdx_eq_none_of_all (cs : List Coin) (hb : Bytes) (i : Nat)
    (h : ∀ c ∈ cs, coinMatch c hb i = false) : findIdx cs hb i = none := by
  induction cs with
  | nil => rfl
  | cons c rest ih =>
    have hc := h c (List.mem_cons_self c rest)
    simp [findIdx, hc, ih fun d hd => h d (List.mem_cons_of_mem c hd)]

theorem findIdx_some_spec : ∀ (cs : List Coin) (hb : Bytes) (i j : Nat),
    findIdx cs hb i = some j →
    j < cs.length ∧ coinMatch (cs.getD j coin0) hb i = true ∧
      ∀ k, k < j → coinMatch (cs.getD k coin0) hb i = false := by
  intro cs
  induction cs with
  | nil => intro hb i j h; simp [findIdx] at h
  | cons c rest ih =>
    intro hb i j h
    by_cases hm : coinMatch c hb i = true
    · simp only [findIdx, hm, if_true, Option.some.injEq] at h
      subst h
      exact ⟨Nat.succ_pos _, by simpa using hm, fun k hk => absurd hk (Nat.not_lt_zero k)⟩
    · have hm' : coinMatch c hb i = false := by
        simpa using hm
      simp only [findIdx, hm', if_neg, Option.map_eq_some'] at h
      simp only [Bool.false_eq_true, if_false, Option.map_eq_some'] at h
      obtain ⟨j', hj', rfl⟩ := h
      obtain ⟨hlt, hmt, hbefore⟩ := ih hb i j' hj'
      refine ⟨Nat.succ_lt_succ hlt, by simpa using hmt, ?_⟩
      intro k hk
      cases k with
      | zero => simpa using hm'
      | succ k' =>
        simp only [List.getD_cons_succ]
        exact hbefore k' (Nat.lt_of_succ_lt_succ hk)

theorem findIdx_some_of_mem : ∀ (cs : List Coin) (hb : Bytes) (i : Nat),
    (∃ c ∈ cs, coinMatch c hb i = true) → ∃ j, findIdx cs hb i = some j := by
  intro cs
  induction cs with
  | nil => rintro hb i ⟨c, hc, _⟩; exact absurd hc (List.not_mem_nil c)
  | cons c rest ih =>
    rintro hb i ⟨d, hd, hmatch⟩
    by_cases hm : coinMatch c hb i = true
    · exact ⟨0, by simp [findIdx, hm]⟩
    · have hm' : coinMatch c hb i = false := by simpa using hm
      rcases List.mem_cons.1 hd with rfl | hd'
      · exact absurd hmatch hm
      · obtain ⟨j, hj⟩ := ih hb i ⟨d, hd', hmatch⟩
        exact ⟨j + 1, by simp [findIdx, hm', hj]⟩

theorem length_swapRemove (cs : List Coin) (i : Nat) :
    (swapRemove cs i).length = cs.length - 1 := by
  unfold swapRemove
  cases hcs : cs.getLast? with
  | none =>
    have : cs = [] := by
      cases cs with
      | nil => rfl
      | cons a t => simp [List.getLast?_eq_getLast (a :: t) (by simp)] at hcs
    subst this; rfl
  | some last => simp [List.length_dropLast, List.length_set]

theorem dropLast_cons_ne {α : Type} (a : α) (l : List α) (h : l ≠ []) :
    (a :: l).dropLast = a :: l.dropLast := by
  cases l with
  | nil => exact absurd rfl h
  | cons b t => rfl

theorem swapRemove_perm : ∀ (cs : List Coin) (i : Nat), i < cs.length →
    (swapRemove cs i).Perm (cs.eraseIdx i) := by
  intro cs
  induction cs with
  | nil => intro i h; simp at h
  | cons c rest ih =>
    intro i h
    cases i with
    | zero =>
      cases rest with
      | nil => simp [swapRemove]
      | cons d t =>
        have hne : d :: t ≠ [] := by simp
        have hlast : (c :: d :: t).getLast? = some ((d :: t).getLast hne) := by
          rw [List.getLast?_cons_cons]
          exact List.getLast?_eq_getLast (d :: t) hne
        simp only [swapRemove, hlast, List.set_cons_zero, List.eraseIdx_cons_zero]
        rw [dropLast_cons_ne _ _ hne]
        have hperm : ((d :: t).getLast hne :: (d :: t).dropLast).Perm
            ((d :: t).dropLast ++ [(d :: t).getLast hne]) := by
          exact @List.perm_append_comm Coin [(d :: t).getLast hne] ((d :: t).dropLast)
        rw [List.dropLast_append_getLast hne] at hperm
        exact hperm
    | succ j =>
      cases rest with
      | nil => simp at h
      | cons d t =>
        have hj : j < (d :: t).length := Nat.lt_of_succ_lt_succ h
        have hne : d :: t ≠ [] := by simp
        have hlast : (c :: d :: t).getLast? = some ((d :: t).getLast hne) := by
          rw [List.getLast?_cons_cons]
          exact List.getLast?_eq_getLast (d :: t) hne
        have hlast2 : (d :: t).getLast? = some ((d :: t).getLast hne) :=
          List.getLast?_eq_getLast (d :: t) hne
        simp only [swapRemove, hlast, hlast2, List.set_cons_succ, List.eraseIdx_cons_succ]
        have hsetne : (d :: t).set j ((d :: t).getLast hne) ≠ [] := by
          cases j with
          | zero => simp
          | succ j' => simp
        rw [dropLast_cons_ne _ _ hsetne]
        refine List.Perm.cons c ?_
        have := ih j hj
        simpa [swapRemove, hlast2] using this

theorem runIns_append (env : KeyEnv) (reg : Registry) (xs ys : List TxIn) :
    runIns env reg (xs ++ ys) =
      ((runIns env (runIns env reg xs).1 ys).1,
        (runIns env reg xs).2 ++ (runIns env (runIns env reg xs).1 ys).2) := by
  induction xs generalizing reg with
  | nil => simp [runIns]
  | cons x xs ih => simp [runIns, ih, List.append_assoc]

/-- A transaction with a single 5-value output, used as concrete data. -/
def t0 : Tx := ⟨[], [⟨5, []⟩], List.replicate 32 2⟩

/-- A concrete address (serialized public key). -/
def pub0 : Bytes := [1]

/-- A key environment owning nothing. -/
def envNone : KeyEnv := ⟨fun _ => none, fun _ => false, fun _ => none⟩

/-- A key environment owning every key, with identity parsing and
reverse lookup. -/
def envAll : KeyEnv := ⟨fun b => some b, fun _ => true, fun h => some h⟩

/-- A coinbase input: 32 zero bytes and the maximum 32-bit index. -/
def cbIn : TxIn := ⟨List.replicate 32 0, 0xffffffff, []⟩

/-- A transaction whose sole input is the coinbase sentinel. -/
def cbTx : Tx := ⟨[cbIn], [], [9, 9]⟩

/-- An input whose signature script decodes fully: a well-formed header
followed by the supported tail with sighash byte 0x01 and pubkey `[9]`. -/
def inW : TxIn := ⟨[3], 0, [6, 48, 4, 2, 1, 0, 2, 1, 0, 1, 1, 9]⟩

/-- An input whose signature-script header consumes the whole buffer:
the old, unsupported scriptsig variant. -/
def inOld : TxIn := ⟨[3], 0, [6, 48, 4, 2, 1, 0, 2, 1, 0]⟩

/-- An output carrying a pay-to-public-key-hash script over the 20-byte
hash `7,...,7` and value 42. -/
def outW : TxOut := ⟨42, [0x76, 0xA9, 0x14] ++ List.replicate 20 7 ++ [0x88, 0xAC]⟩

/-- A transaction with `outW` as its only output. -/
def mtxW : Tx := ⟨[], [outW], [5, 5]⟩

/-- A registry holding one coin with outpoint `([8], 3)` under
address `[4]`. -/
def regW : Registry := setCoins emptyRegistry [4] [⟨[4], [8], 3, 10, 0⟩]

/-- C1: the claim that every sequence of add and remove operations
preserves the no-duplicate-outpoint invariant is false: `add` performs no
duplicate check, so adding the same `(transaction hash, output index)`
twice under one address yields a reachable state with two coins sharing
an outpoint. -/
theorem C1_counterexample :
    ¬ Invariant (add (add emptyRegistry pub0 t0 0 0) pub0 t0 0 0) :=
  fun h => absurd (h pub0) (by decide)

/-- C1 (amended): `remove` always preserves the invariant that no two
coins of one address share a `(transaction hash, output index)` pair, and
`add` preserves it exactly under the proviso that no coin with the added
outpoint is already stored under that address. -/
theorem C1_amended (reg : Registry) (pub : Bytes) (t : Tx) (index : Nat) (ttype : Int)
    (hash : Bytes) (idx : Nat) (hinv : Invariant reg) :
    (((reg pub).all fun c => !(coinMatch c t.hash index)) = true →
      Invariant (add reg pub t index ttype)) ∧
    Invariant ((remove reg pub hash idx).1) := by
  constructor
  · intro hfresh a
    by_cases ha : a = pub
    · subst ha
      simp only [add, setCoins, if_pos rfl]
      exact coinsOk_append_one _ _ (hinv a) hfresh
    · simp only [add, setCoins, if_neg ha]
      exact hinv a
  · intro a
    cases hfind : findIdx (reg pub) hash idx with
    | none => simp only [remove, hfind]; exact hinv a
    | some i =>
      simp only [remove, hfind]
      by_cases ha : a = pub
      · subst ha
        simp only [setCoins, if_pos rfl]
        have hlt : i < (reg a).length := (findIdx_some_spec _ _ _ _ hfind).1
        have hperm := swapRemove_perm (reg a) i hlt
        have hsub := List.eraseIdx_sublist (reg a) i
        have hR : ∀ {c d : Coin}, coinMatch d c.txHash c.txIndex = false →
            coinMatch c d.txHash d.txIndex = false := by
          intro c d hcd
          rw [coinMatch_comm]
          exact hcd
        rw [coinsOk_eq_true_iff]
        have hpw := (coinsOk_eq_true_iff (reg a)).1 (hinv a)
        exact (hperm.pairwise_iff hR).2 (hpw.sublist hsub)
      · simp only [setCoins, if_neg ha]
        exact hinv a

/-- C1 witness: the amended preservation applied to the empty registry. -/
theorem C1_amended_witness :
    Invariant ((remove emptyRegistry pub0 [2] 0).1) :=
  (C1_amended emptyRegistry pub0 t0 0 0 [2] 0 (fun _ => rfl)).2

/-- C2: the claim that a coinbase input is skipped with no diagnostic log
entry is false: the processor logs the diagnostic `coinbase` for it
(while still performing no registry mutation and reporting no error). -/
theorem C2_counterexample :
    Add envNone emptyRegistry cbTx =
      Except.ok ((emptyRegistry, ["coinbase"]) : Registry × List String) ∧
    (["coinbase"] : List String) ≠ [] :=
  ⟨rfl, by simp⟩

/-- C2 (amended): an input whose referenced hash is 32 zero bytes and
whose index is the maximum 32-bit value is skipped with no registry
mutation and no error, but a `coinbase` diagnostic log entry is
produced. -/
theorem C2_amended (env : KeyEnv) (inp : TxIn) (reg : Registry)
    (h1 : inp.hash = List.replicate 32 0) (h2 : inp.index = 0xffffffff) :
    processIn env inp reg = (reg, ["coinbase"]) := by
  simp [processIn, h1, h2, zero32]

/-- C2 witness: the amended behaviour at the concrete coinbase input. -/
theorem C2_amended_witness :
    processIn envNone cbIn emptyRegistry = (emptyRegistry, ["coinbase"]) :=
  C2_amended envNone cbIn emptyRegistry rfl rfl

/-- C3: when no coin under the address matches `(hash, index)`, `remove`
fails with the coin-not-found error and every address's coin list is left
unchanged. -/
theorem C3_remove_absent (reg : Registry) (pub hash : Bytes) (index : Nat)
    (h : ∀ c ∈ reg pub, coinMatch c hash index = false) :
    (remove reg pub hash index).2 = Except.error "coin was not found" ∧
    ∀ a, (remove reg pub hash index).1 a = reg a := by
  have hfind := findIdx_eq_none_of_all (reg pub) hash index h
  simp [remove, hfind]

/-- C3 witness: removal of an absent outpoint from a concrete registry. -/
theorem C3_witness :
    (remove regW [4] [9] 3).2 = Except.error "coin was not found" ∧
    ∀ a, (remove regW [4] [9] 3).1 a = regW a :=
  C3_remove_absent regW [4] [9] 3 (by decide)

/-- C4: transaction processing never returns a top-level error: for every
environment, registry and decoded transaction, `Add` returns `ok`,
carrying only the mutated registry and the diagnostic log. -/
theorem C4_no_top_level_error (env : KeyEnv) (reg : Registry) (mtx : Tx) :
    ∃ p : Registry × List String, Add env reg mtx = Except.ok p :=
  ⟨_, rfl⟩

/-- C5: an output whose script is exactly
`[0x76, 0xA9, 0x14, <20-byte hash>, 0x88, 0xAC]` with the hash
reverse-looked-up to an owned key produces exactly one new coin under
that key, with type tag 0, the output's value, the transaction's hash,
and the output position as index. -/
theorem C5_p2pkh_adds_coin (env : KeyEnv) (mtx : Tx) (i : Nat) (out : TxOut)
    (reg : Registry) (hash20 pk : Bytes)
    (hlen : hash20.length = 20)
    (hscript : out.script = [0x76, 0xA9, 0x14] ++ hash20 ++ [0x88, 0xAC])
    (hown : env.hasPubHash hash20 = some pk)
    (hget : mtx.txOut.getD i defaultTxOut = out) :
    processOut env mtx i out reg =
      (setCoins reg pk (reg pk ++ [⟨pk, mtx.hash, i, out.value, 0⟩]),
        ["pubkeyhash scriptsig"]) := by
  have h20 : readBytes 20 (hash20 ++ [0x88, 0xAC]) = some (hash20, [0x88, 0xAC]) := by
    rw [← hlen]
    exact readBytes_len_append hash20 [0x88, 0xAC]
  have hparse : parseScript out.script =
      Except.ok ⟨0x76, 0xA9, 0x14, hash20, 0x88, 0xAC⟩ := by
    rw [hscript]
    simp [parseScript, unpackScript, readByte, h20]
  have hchk : checkTxout env ⟨0x76, 0xA9, 0x14, hash20, 0x88, 0xAC⟩ = Except.ok pk := by
    simp [checkTxout, opDUP, opHASH160, opEQUALVERIFY, opCHECKSIG, hown]
  have hget2 : mtx.txOut[i]?.getD defaultTxOut = out := by
    rw [← List.getD_eq_getElem?_getD]
    exact hget
  simp [processOut, hparse, hchk, add, hget2]

/-- C5 witness: the concrete pay-to-public-key-hash output `outW`. -/
theorem C5_witness :
    processOut envAll mtxW 0 outW emptyRegistry =
      (setCoins emptyRegistry (List.replicate 20 7)
        (emptyRegistry (List.replicate 20 7) ++
          [⟨List.replicate 20 7, mtxW.hash, 0, outW.value, 0⟩]),
        ["pubkeyhash scriptsig"]) :=
  C5_p2pkh_adds_coin envAll mtxW 0 outW emptyRegistry (List.replicate 20 7)
    (List.replicate 20 7) (by decide) rfl rfl rfl

/-- C6: for a non-coinbase input whose signature script decodes and whose
embedded key is owned, the processor invokes `remove` with the owner's
key, the input's referenced transaction hash and the input's index field;
a coin-not-found failure is logged and absorbed, never propagated. -/
theorem C6_remove_invocation (env : KeyEnv) (inp : TxIn) (reg : Registry)
    (buf : Bytes) (s : ScriptSigT) (pk : Bytes)
    (hcb : (inp.hash == zero32 && inp.index == 0xffffffff) = false)
    (hH : parseScriptsigH inp.script = Except.ok buf)
    (hT : parseScriptsigT buf inp.script = Except.ok s)
    (hK : checkTxin env s = Except.ok pk) :
    processIn env inp reg =
      ((remove reg pk inp.hash inp.index).1,
        match (remove reg pk inp.hash inp.index).2 with
        | Except.ok _ => []
        | Except.error e => [e]) := by
  simp only [processIn, hcb, Bool.false_eq_true, if_false, hH, hT, hK]
  cases hrem : (remove reg pk inp.hash inp.index).2 <;> simp [hrem]

/-- C6 witness: the concrete decodable input `inW` whose removal fails
with coin-not-found on the empty registry and is logged. -/
theorem C6_witness :
    processIn envAll inW emptyRegistry =
      ((remove emptyRegistry [9] inW.hash inW.index).1,
        match (remove emptyRegistry [9] inW.hash inW.index).2 with
        | Except.ok _ => []
        | Except.error e => [e]) :=
  C6_remove_invocation envAll inW emptyRegistry [1, 1, 9] ⟨1, 1, [9]⟩ [9]
    (by decide) rfl rfl rfl

/-- C7: an input (non-coinbase) whose signature-script header decodes
completely and leaves exactly zero bytes is skipped with the single
old-scriptsig diagnostic and no registry change, and the rest of the
transaction — later inputs and all outputs — is processed exactly as if
the input had contributed nothing but that log entry. -/
theorem C7_old_scriptsig_skip (env : KeyEnv) (inp : TxIn) (s : ScriptSigH)
    (hcb : (inp.hash == zero32 && inp.index == 0xffffffff) = false)
    (hdec : unpackScriptSigH inp.script = some (s, [])) :
    (∀ reg, processIn env inp reg = (reg, ["old type of scriptsig, ignoring"])) ∧
    (∀ (reg : Registry) (mtx : Tx) (pre post : List TxIn),
      mtx.txIn = pre ++ inp :: post →
      Add env reg mtx =
        Except.ok
          ((runOuts env mtx (runIns env (runIns env reg pre).1 post).1 0 mtx.txOut).1,
            (runIns env reg pre).2 ++ ["old type of scriptsig, ignoring"] ++
              (runIns env (runIns env reg pre).1 post).2 ++
              (runOuts env mtx (runIns env (runIns env reg pre).1 post).1 0 mtx.txOut).2)) := by
  have hH : parseScriptsigH inp.script =
      Except.error "old type of scriptsig, ignoring" := by
    simp [parseScriptsigH, hdec]
  have hstep : ∀ reg, processIn env inp reg =
      (reg, ["old type of scriptsig, ignoring"]) := by
    intro reg
    simp [processIn, hcb, hH]
  refine ⟨hstep, ?_⟩
  intro reg mtx pre post hins
  simp only [Add, hins, runIns_append]
  simp [runIns, hstep, List.append_assoc]

/-- C7 witness: the concrete old-variant input `inOld`. -/
theorem C7_witness :
    processIn envAll inOld emptyRegistry =
      (emptyRegistry, ["old type of scriptsig, ignoring"]) :=
  (C7_old_scriptsig_skip envAll inOld ⟨6, 48, 4, 2, 1, [0], 2, 1, [0]⟩
    (by decide) rfl).1 emptyRegistry

/-- C8: adding a coin for `(address, hash, index, value)` and then
removing that same `(address, hash, index)` succeeds and restores the
address's prior coin count. -/
theorem C8_add_then_remove (reg : Registry) (pub : Bytes) (t : Tx)
    (index : Nat) (ttype : Int) :
    (remove (add reg pub t index ttype) pub t.hash index).2 = Except.ok () ∧
    ((remove (add reg pub t index ttype) pub t.hash index).1 pub).length =
      (reg pub).length := by
  have hpub : (add reg pub t index ttype) pub =
      reg pub ++ [⟨pub, t.hash, index, (t.txOut.getD index defaultTxOut).value, ttype⟩] := by
    simp [add, setCoins]
  have hmem : ∃ c ∈ (add reg pub t index ttype) pub, coinMatch c t.hash index = true := by
    rw [hpub]
    exact ⟨_, List.mem_append_right _ (List.mem_singleton_self _), by simp [coinMatch]⟩
  obtain ⟨j, hj⟩ := findIdx_some_of_mem _ _ _ hmem
  constructor
  · simp only [remove, hj]
  · have h1 : (remove (add reg pub t index ttype) pub t.hash index).1 =
        setCoins (add reg pub t index ttype) pub
          (swapRemove ((add reg pub t index ttype) pub) j) := by
      simp only [remove, hj]
    have h2 : (setCoins (add reg pub t index ttype) pub
        (swapRemove ((add reg pub t index ttype) pub) j)) pub =
        swapRemove ((add reg pub t index ttype) pub) j := by
      simp [setCoins]
    rw [h1, h2, length_swapRemove, hpub]
    simp

/-- C9: for every output script, the pay-to-public-key-hash template takes
priority: when it parses, the outcome is the type-0 path no matter what
the pay-to-public-key parse would say; only when it fails structurally is
the type-1 template consulted; when both fail, the output is skipped and
both error messages are retained as diagnostics. -/
theorem C9_priority (env : KeyEnv) (mtx : Tx) (i : Nat) (out : TxOut) (reg : Registry) :
    processOut env mtx i out reg =
      match parseScript out.script with
      | Except.ok s =>
        (match checkTxout env s with
         | Except.error e3 => (reg, ["pubkeyhash scriptsig", e3])
         | Except.ok pk =>
           (setCoins reg pk (reg pk ++
              [⟨pk, mtx.hash, i, (mtx.txOut.getD i defaultTxOut).value, 0⟩]),
            ["pubkeyhash scriptsig"]))
      | Except.error e =>
        match parseScript2 out.script with
        | Except.ok s2 =>
          (match checkTxout2 env s2 with
           | Except.error e3 => (reg, ["pubkey scriptsig", e3])
           | Except.ok pk =>
             (setCoins reg pk (reg pk ++
                [⟨pk, mtx.hash, i, (mtx.txOut.getD i defaultTxOut).value, 1⟩]),
              ["pubkey scriptsig"]))
        | Except.error e2 => (reg, [e ++ " " ++ e2, "This txout is not supproted"]) := by
  cases h1 : parseScript out.script with
  | ok s => simp [processOut, h1, add]
  | error e =>
    cases h2 : parseScript2 out.script with
    | ok s2 => simp [processOut, h1, h2, add]
    | error e2 => simp [processOut, h1, h2]

/-- C10: when one or more coins under an address match `(hash, index)`,
`remove` succeeds and deletes exactly the first match in list order: the
result is, up to the order-destroying swap, the original list with that
one position erased, so later matching coins remain; other addresses are
untouched. -/
theorem C10_remove_first_match (reg : Registry) (pub hash : Bytes) (index : Nat)
    (hmem : ∃ c ∈ reg pub, coinMatch c hash index = true) :
    ∃ j, j < (reg pub).length ∧
      coinMatch ((reg pub).getD j coin0) hash index = true ∧
      (∀ k, k < j → coinMatch ((reg pub).getD k coin0) hash index = false) ∧
      (remove reg pub hash index).2 = Except.ok () ∧
      ((remove reg pub hash index).1 pub).Perm ((reg pub).eraseIdx j) ∧
      ∀ a, a ≠ pub → (remove reg pub hash index).1 a = reg a := by
  obtain ⟨j, hj⟩ := findIdx_some_of_mem _ _ _ hmem
  obtain ⟨hlt, hat, hbefore⟩ := findIdx_some_spec _ _ _ _ hj
  refine ⟨j, hlt, hat, hbefore, ?_, ?_, ?_⟩
  · simp [remove, hj]
  · simp only [remove, hj, setCoins, if_pos rfl]
    exact swapRemove_perm _ _ hlt
  · intro a ha
    simp [remove, hj, setCoins, ha]

/-- C10 witness: removing the outpoint `([8], 3)` present once under
address `[4]` in the concrete registry `regW`. -/
theorem C10_witness :
    ∃ j, j < (regW [4]).length ∧
      coinMatch ((regW [4]).getD j coin0) [8] 3 = true ∧
      (∀ k, k < j → coinMatch ((regW [4]).getD k coin0) [8] 3 = false) ∧
      (remove regW [4] [8] 3).2 = Except.ok () ∧
      ((remove regW [4] [8] 3).1 [4]).Perm ((regW [4]).eraseIdx j) ∧
      ∀ a, a ≠ [4] → (remove regW [4] [8] 3).1 a = regW a :=
  C10_remove_first_match regW [4] [8] 3 ⟨⟨[4], [8], 3, 10, 0⟩, by decide, by decide⟩

end tx
